import Mathlib

/-!
Verification of the `flaskulal` Flask application (`src/app.py`).

The development shallowly embeds the pure logic of the program:

* `limpiar_nombre_archivo` — the name sanitizer (`re.sub(r'[\\/*?:"<>|]', "", nombre)`);
* `buscarNombre` / `extraerNombre` — the anchor-line name extractor
  (the `for i, linea in enumerate(lineas)` loop of `renombrar_pdfs_en_directorio`);
* `buscarLibre` / `resolveTarget` — the collision loop
  (`while os.path.exists(ruta_completa_nueva): ...`) together with a faithful model
  of `os.path.splitext` on plain base names;
* `processOne` / `runDirAux` / `renombrarTree` — the rename engine walking the
  extracted directory tree, with the per-file exception handler and the two
  aggregated result lists;
* `buildArchive` — the output-zip construction loop of the `/api/renamePDF` handler;
* `generate_coupon` — the `/api/generateCoupon` handler, with the module-level
  `current_folio` counter threaded explicitly.

Python strings become `String` (lists of characters), machine-level file system
state becomes an explicit list of directory entries, and code that can raise
becomes explicit case analysis on a `PdfData` value describing what `pdfplumber`
does on the file.
-/

/-- The six characters removed by Python `str.strip()` on ASCII input
(space, tab, newline, carriage return, vertical tab, form feed). -/
def pyIsSpace (c : Char) : Bool :=
  c = ' ' || c = '\t' || c = '\n' || c = '\r' || c = '\x0b' || c = '\x0c'

/-- Model of Python `str.strip()`: drop whitespace from both ends. -/
def pyStrip (s : String) : String :=
  String.mk (((s.data.dropWhile pyIsSpace).reverse.dropWhile pyIsSpace).reverse)

/-- Helper for `splitLines`: accumulates the current line (reversed). -/
def splitLinesAux : List Char → List Char → List String
  | [], acc => [String.mk acc.reverse]
  | c :: rest, acc =>
    if c = '\n' then String.mk acc.reverse :: splitLinesAux rest []
    else splitLinesAux rest (c :: acc)

/-- Model of Python `text.split('\n')`: always returns at least one piece. -/
def splitLines (s : String) : List String :=
  splitLinesAux s.data []

/-- Bool-valued infix test on character lists: `sub` occurs contiguously in the
second argument. -/
def listInfixB (sub : List Char) : List Char → Bool
  | [] => sub.isEmpty
  | c :: rest => sub.isPrefixOf (c :: rest) || listInfixB sub rest

/-- Model of the Python substring test `sub in hay`. -/
def containsSub (hay sub : String) : Bool :=
  listInfixB sub.data hay.data

/-- Model of Python `s.lower()` (ASCII case folding). -/
def pyLower (s : String) : String :=
  String.mk (s.data.map Char.toLower)

/-- Model of Python `s.endswith(suffix)`. -/
def pyEndsWith (s suffix : String) : Bool :=
  suffix.data.isSuffixOf s.data

/-- The extension filter of the rename engine: `nombre_archivo.lower().endswith('.pdf')`. -/
def esNombrePdf (n : String) : Bool :=
  pyEndsWith (pyLower n) ".pdf"

/-- Decimal digit list (most significant first) of a natural number, with fuel;
the fuel argument makes the recursion structural so that the kernel can
evaluate it. -/
def toDecCore : Nat → Nat → List Char
  | 0, _ => []
  | fuel + 1, n =>
    if n < 10 then [Nat.digitChar n]
    else toDecCore fuel (n / 10) ++ [Nat.digitChar (n % 10)]

/-- Model of Python `str(n)` for a non-negative integer. -/
def natStr (n : Nat) : String :=
  String.mk (toDecCore (n + 1) n)

/-- Decimal decoder used to prove that `natStr` is injective. -/
def decodeDec (l : List Char) : Nat :=
  l.foldl (fun acc c => acc * 10 + (c.toNat - 48)) 0

/-- Model of Python `str.zfill(width)` on an unsigned digit string. -/
def zfill (width : Nat) (s : String) : String :=
  if width ≤ s.length then s
  else String.mk (List.replicate (width - s.length) '0') ++ s

/-- Index (from the front) of the last occurrence of `'.'`, modelling
`p.rfind('.')` inside `os.path.splitext`. -/
def idxOfDotFromEnd : List Char → Option Nat
  | [] => none
  | c :: rest =>
    match idxOfDotFromEnd rest with
    | some i => some (i + 1)
    | none => if c = '.' then some 0 else none

/-- Model of `os.path.splitext` on a plain base name (no directory separators):
split at the last dot, except that a name whose characters before that dot are
all dots (a leading-dot file such as `".pdf"`) has no extension. -/
def pySplitext (p : String) : String × String :=
  match idxOfDotFromEnd p.data with
  | none => (p, "")
  | some i =>
    if (p.data.take i).all (fun c => c = '.') then (p, "")
    else (String.mk (p.data.take i), String.mk (p.data.drop i))

/-- The anchor substring searched for inside the first page of each PDF. -/
def anchorText : String := "Nombre(s) Primer apellido Segundo apellido"

/-- Characters deleted by `limpiar_nombre_archivo` (app.py line 40): every character matched by
the regex class `[\\/*?:"<>|]`. -/
def invalidChar (c : Char) : Bool :=
  c = '\\' || c = '/' || c = '*' || c = '?' || c = ':' || c = '\x22' ||
  c = '<' || c = '>' || c = '|'

/-- Model of `limpiar_nombre_archivo`: `re.sub` deleting the invalid characters. -/
def limpiar_nombre_archivo (nombre : String) : String :=
  String.mk (nombre.data.filter (fun c => !(invalidChar c)))

/-- The name-search loop of `renombrar_pdfs_en_directorio` (app.py lines 79–84):
`prev` holds the previous line (`none` on the first line); on a line containing
the anchor the loop returns the stripped previous line, except on the first
line, where it keeps scanning. -/
def buscarNombre : Option String → List String → Option String
  | _, [] => none
  | prev, l :: rest =>
    if containsSub l anchorText then
      match prev with
      | some p => some (pyStrip p)
      | none => buscarNombre (some l) rest
    else buscarNombre (some l) rest

/-- Name extraction from the first-page text: split into lines and scan. -/
def extraerNombre (texto : String) : Option String :=
  buscarNombre none (splitLines texto)

/-- Spec-side definition (from the spec wording of the Document Name Extractor):
index of the first line containing the anchor. -/
def firstAnchor : List String → Option Nat
  | [] => none
  | l :: rest =>
    if containsSub l anchorText then some 0
    else (firstAnchor rest).map (fun j => j + 1)

/-- Spec-side extractor, following the spec wording: the first line that
contains the anchor and is not the first line determines the result — the
immediately preceding line, trimmed; otherwise none. -/
def specExtractName : List String → Option String
  | [] => none
  | l0 :: rest =>
    (firstAnchor rest).map (fun j => pyStrip ((l0 :: rest).getD j ""))

/-- The `k`-th candidate target name produced by the collision loop for
candidate `nuevo`: `k = 0` is `nuevo` itself, and `k ≥ 1` is
`base ++ "_" ++ str(k) ++ ext` with `(base, ext) = os.path.splitext(nuevo)`
(app.py lines 94–99). -/
def candidato (nuevo : String) (k : Nat) : String :=
  if k = 0 then nuevo
  else (pySplitext nuevo).1 ++ "_" ++ natStr k ++ (pySplitext nuevo).2

/-- The `while os.path.exists(ruta_completa_nueva)` loop (app.py lines 96–99),
with explicit fuel; `existing` is the set of paths that exist in the directory,
`cur` the current candidate, `counter` the Python `counter` variable. -/
def buscarLibre (existing : List String) (base ext : String) :
    Nat → String → Nat → String
  | 0, cur, _ => cur
  | fuel + 1, cur, counter =>
    if existing.contains cur then
      buscarLibre existing base ext fuel (base ++ "_" ++ natStr counter ++ ext) (counter + 1)
    else cur

/-- Collision resolution for candidate name `nuevo` against the set `existing`
of names that currently exist in the same directory.  The fuel
`existing.length + 1` is proved sufficient below (`buscarLibre_eq_candidato`). -/
def resolveTarget (existing : List String) (nuevo : String) : String :=
  buscarLibre existing (pySplitext nuevo).1 (pySplitext nuevo).2
    (existing.length + 1) nuevo 1

/-- What `pdfplumber` does on one PDF file: opening raises an exception,
the document has no pages, or the first page yields `extract_text()`
(`none` models Python `None`; `some ""` is also falsy in the code). -/
inductive PdfData
  | raisesError (msg : String)
  | noPages
  | pages (text : Option String)
  deriving DecidableEq

/-- One file of a directory: its current name and its (immutable) content. -/
structure FileEntry where
  name : String
  data : PdfData
  deriving DecidableEq

/-- Per-file outcome of the rename engine.  `renamed` and `alreadyNamed` feed
`renombrados_info`, `warning` and `error` feed `advertencias_errores`
(app.py lines 52–53). -/
inductive Outcome
  | renamed (oldRel newRel : String)
  | alreadyNamed (rel : String)
  | warning (msg : String)
  | error (msg : String)
  deriving DecidableEq

/-- One directory of the extraction tree: its path relative to the extraction
root (`""` for the root itself) and its files. -/
structure DirState where
  dir : String
  files : List FileEntry
  deriving DecidableEq

/-- Model of `os.path.relpath(os.path.join(dirpath, n), directorio_base)`. -/
def relPath (dir n : String) : String :=
  if dir = "" then n else dir ++ "/" ++ n

/-- Wrap a string in single quotes, as the f-strings of app.py do. -/
def comilla (s : String) : String := "\x27" ++ s ++ "\x27"

/-- app.py line 66. -/
def msgSinPaginas (rel : String) : String :=
  "⚠️ ADVERTENCIA: " ++ comilla rel ++ " no tiene páginas."

/-- app.py line 73. -/
def msgSinTexto (rel : String) : String :=
  "⚠️ ADVERTENCIA: No se pudo extraer texto de la primera página de " ++ comilla rel ++ "."

/-- app.py line 109. -/
def msgSinClave (rel : String) : String :=
  "❌ ERROR: No se encontró el texto clave en " ++ comilla rel ++ ". No se renombró."

/-- app.py line 114: the per-file catch-all handler. -/
def msgProcesarError (rel e : String) : String :=
  "❌ ERROR al procesar " ++ comilla rel ++ ": " ++ e

/-- app.py line 119. -/
def msgNoPdfs : String :=
  "⚠️ ADVERTENCIA: No se encontraron archivos PDF en ninguna carpeta dentro del ZIP."

/-- Message used when the opened path is missing from the model state; in the
running program the open raises and lands in the same catch-all handler. -/
def msgArchivoFaltante : String := "archivo no encontrado"

/-- Model of `os.rename`: give the (unique) entry called `n` the new name `target`. -/
def renameEntry (fs : List FileEntry) (n target : String) : List FileEntry :=
  fs.map (fun e => if e.name == n then ⟨target, e.data⟩ else e)

/-- The body of the per-PDF loop of `renombrar_pdfs_en_directorio`
(app.py lines 59–116) for the snapshot name `n` inside directory `dir`, acting
on the live file list `fs`.  Returns the updated file list and the single
outcome recorded for this file. -/
def processOne (dir : String) (fs : List FileEntry) (n : String) :
    List FileEntry × Outcome :=
  match fs.find? (fun e => e.name == n) with
  | none => (fs, .error (msgProcesarError (relPath dir n) msgArchivoFaltante))
  | some e =>
    match e.data with
    | .raisesError m => (fs, .error (msgProcesarError (relPath dir n) m))
    | .noPages => (fs, .warning (msgSinPaginas (relPath dir n)))
    | .pages t? =>
      match t? with
      | none => (fs, .warning (msgSinTexto (relPath dir n)))
      | some t =>
        if t = "" then (fs, .warning (msgSinTexto (relPath dir n)))
        else
          match buscarNombre none (splitLines t) with
          | none => (fs, .error (msgSinClave (relPath dir n)))
          | some s =>
            if s = "" then (fs, .error (msgSinClave (relPath dir n)))
            else
              let nuevo := limpiar_nombre_archivo s ++ ".pdf"
              if nuevo = n then (fs, .alreadyNamed (relPath dir n))
              else
                let target := resolveTarget (fs.map (fun e2 => e2.name)) nuevo
                (renameEntry fs n target,
                 .renamed (relPath dir n) (relPath dir target))

/-- The loop over the `os.walk` snapshot of one directory: `ns` is the list of
file names returned when the directory was listed, `fs` the live file list.
Returns the final file list, the outcomes in order, and the number of files
counted by `pdf_procesados`. -/
def runDirAux (dir : String) : List String → List FileEntry →
    List FileEntry × List Outcome × Nat
  | [], fs => (fs, [], 0)
  | n :: ns, fs =>
    if esNombrePdf n then
      match processOne dir fs n with
      | (fs2, o) =>
        match runDirAux dir ns fs2 with
        | (fs3, outs, k) => (fs3, o :: outs, k + 1)
    else runDirAux dir ns fs

/-- Process one directory: the snapshot is the list of current names. -/
def runDir (d : DirState) : List FileEntry × List Outcome × Nat :=
  runDirAux d.dir (d.files.map (fun e => e.name)) d.files

/-- Process every directory of the tree in walk order; renames never cross
directories, so the directories are independent. -/
def runTreeAux : List DirState → List DirState × List Outcome × Nat
  | [] => ([], [], 0)
  | d :: ds =>
    match runDir d, runTreeAux ds with
    | (fs, outs, k), (ds2, outs2, k2) => (⟨d.dir, fs⟩ :: ds2, outs ++ outs2, k + k2)

/-- Model of `renombrar_pdfs_en_directorio` on the whole extraction tree: run every
directory and, when no PDF was processed at all, append the global warning
(app.py lines 118–121). -/
def renombrarTree (dirs : List DirState) : List DirState × List Outcome :=
  match runTreeAux dirs with
  | (ds, outs, k) => (ds, if k = 0 then outs ++ [.warning msgNoPdfs] else outs)

/-- The `renombrados_info` list: relative paths appended for renamed and already-named
files (app.py lines 103 and 107), in processing order. -/
def renombradosInfo (outs : List Outcome) : List String :=
  outs.filterMap (fun o =>
    match o with
    | .renamed _ newRel => some newRel
    | .alreadyNamed rel => some rel
    | _ => none)

/-- The `advertencias_errores` list: the warning/error messages in processing order. -/
def advertenciasErrores (outs : List Outcome) : List String :=
  outs.filterMap (fun o =>
    match o with
    | .warning m => some m
    | .error m => some m
    | _ => none)

/-- Number of snapshot names with the PDF extension in the whole tree
(the final value of `pdf_procesados`). -/
def totalPdfs : List DirState → Nat
  | [] => 0
  | d :: ds => ((d.files.map (fun e => e.name)).filter esNombrePdf).length + totalPdfs ds

/-- The output-zip loop of `rename_pdf` (app.py lines 225–231): walk the tree
and collect, in order, the archive entry names (paths relative to the
extraction root) of every file whose name passes the PDF filter. -/
def buildArchive : List DirState → List String
  | [] => []
  | d :: ds =>
    (d.files.filter (fun e => esNombrePdf e.name)).map (fun e => relPath d.dir e.name)
      ++ buildArchive ds

/-- The candidate name that `processOne` computes for a file, when extraction
succeeds: first-page text present and truthy, anchor found with a truthy name.
`some c` means the file would be renamed to `c` (or left alone if already
called `c`). -/
def candidateOf (e : FileEntry) : Option String :=
  match e.data with
  | .pages (some t) =>
    if t = "" then none
    else
      match buscarNombre none (splitLines t) with
      | some s => if s = "" then none else some (limpiar_nombre_archivo s ++ ".pdf")
      | none => none
  | _ => none

/-- A file that the engine would record as already named. -/
def bienNombrado (e : FileEntry) : Bool :=
  candidateOf e == some e.name

/-- A tree on which a run is pure bookkeeping: it contains at least one file
with the PDF extension, and every such file is already well named. -/
def goodTreeB (dirs : List DirState) : Bool :=
  dirs.any (fun d => d.files.any (fun e => esNombrePdf e.name)) &&
  dirs.all (fun d => d.files.all (fun e => !esNombrePdf e.name || bienNombrado e))

/-- Recognizer for `Outcome.renamed`. -/
def esRenombrado : Outcome → Bool
  | .renamed _ _ => true
  | _ => false

/-- The JSON value found under `recipientName`: absent key, a string, or a
non-string value (`null`, a number, …) on which `.strip()` raises
`AttributeError`. -/
inductive RecipientField
  | absent
  | str (s : String)
  | nonString
  deriving DecidableEq

/-- The request body of `/api/generateCoupon`.  `alumniName` is `none` when the
key is absent or `null` (then `data.get('alumniName')` is Python `None`). -/
structure CouponBody where
  alumniName : Option String
  recipientName : RecipientField
  deriving DecidableEq

/-- Outcome of one `generate_coupon` call.  `crash` is an exception escaping
the handler (Flask then answers 500); `ok` carries the folio string of the
JSON success body (the rendered image bytes are outside the model); the two
error constructors carry the JSON error message (HTTP 400 resp. 500). -/
inductive CouponResponse
  | crash
  | badRequest (msg : String)
  | resourceError (msg : String)
  | ok (folio : String)
  deriving DecidableEq

/-- app.py line 135. -/
def msgAlumniObligatorio : String := "El nombre del exalumno es obligatorio."

/-- app.py line 185. -/
def msgArchivoNoEncontrado : String :=
  "Error del servidor: Archivo de imagen o fuente no encontrado."

/-- Model of the expression `data.get` + `.strip()` for the recipient (app.py line 132): `none` means the
expression raises. -/
def stripRecipient : RecipientField → Option String
  | .absent => some ""
  | .str s => some (pyStrip s)
  | .nonString => none

/-- Python truthiness test `not alumni_name` for the `Optional[str]` value. -/
def alumniFalsy : Option String → Bool
  | none => true
  | some s => s = ""

/-- Model of `generate_coupon` (app.py lines 128–188) with the global `current_folio`
threaded explicitly; `imageOk` tells whether `Image.open(COUPON_BASE_IMAGE_PATH)`
succeeds (a missing file raises `FileNotFoundError`, caught at line 183).
Returns the response together with the new counter value.  The order matches
the code: the recipient strip runs before validation and outside the `try`
block; the counter increment and folio formatting precede the image load. -/
def generate_coupon (body : CouponBody) (imageOk : Bool) (folio : Nat) :
    CouponResponse × Nat :=
  match stripRecipient body.recipientName with
  | none => (.crash, folio)
  | some _recipient =>
    if alumniFalsy body.alumniName then (.badRequest msgAlumniObligatorio, folio)
    else
      let folio2 := folio + 1
      let folioStr := zfill 4 (natStr folio2)
      if imageOk then (.ok folioStr, folio2)
      else (.resourceError msgArchivoNoEncontrado, folio2)

/-- A request body accepted by validation. -/
def couponBodyOf (name : String) : CouponBody := ⟨some name, .absent⟩

/-- The `current_folio` value after `k` coupon generations with the base image
available and alumni names given by `names` (initial value 36, app.py line 32). -/
def counterAfter (names : Nat → String) : Nat → Nat
  | 0 => 36
  | k + 1 => (generate_coupon (couponBodyOf (names k)) true (counterAfter names k)).2

/-- The response of the `n`-th generation call (`n ≥ 1`) in that sequence. -/
def nthCouponResp (names : Nat → String) (n : Nat) : CouponResponse :=
  (generate_coupon (couponBodyOf (names (n - 1))) true (counterAfter names (n - 1))).1

/-- First-page text whose extracted name is `s`: the line before the anchor. -/
def textoCon (s : String) : String := s ++ "\n" ++ anchorText

/-- Fixture: two documents in the root directory that both extract the name
`"Juan Perez"`. -/
def dosJuanes : List DirState :=
  [⟨"", [⟨"a.pdf", .pages (some (textoCon "Juan Perez"))⟩,
         ⟨"b.pdf", .pages (some (textoCon "Juan Perez"))⟩]⟩]

/-- Fixture: one well-behaved document. -/
def unJuan : List DirState :=
  [⟨"", [⟨"a.pdf", .pages (some (textoCon "Juan Perez"))⟩]⟩]

/-- Fixture: a directory holding a file literally called `".pdf"` and a
document whose extracted name sanitizes to the empty string. -/
def puntoPdfTree : List FileEntry :=
  [⟨".pdf", .noPages⟩, ⟨"a.pdf", .pages (some (textoCon "?"))⟩]

/-- Fixture: a raising document followed by a well-behaved one. -/
def arbolConError : List DirState :=
  [⟨"", [⟨"x.pdf", .raisesError "boom"⟩,
         ⟨"y.pdf", .pages (some (textoCon "Ana Lopez"))⟩]⟩]

/-- Fixture: `"Juan Perez.pdf"` already present while `b.pdf` also resolves to
that name. -/
def juanFs : List FileEntry :=
  [⟨"Juan Perez.pdf", .noPages⟩,
   ⟨"b.pdf", .pages (some (textoCon "Juan Perez"))⟩]

theorem filter_not_invalid_count (s : String) (c : Char) (hc : invalidChar c = false) :
    (limpiar_nombre_archivo s).data.count c = s.data.count c := by
  have : (!(invalidChar c)) = true := by simp [hc]
  simpa [limpiar_nombre_archivo] using List.count_filter (l := s.data) this

/-- C5: the Name Sanitizer returns its input with exactly the characters of the
set `\ / * ? : " < > |` deleted: the output is a subsequence of the input, it
contains no invalid character, every valid character keeps its number of
occurrences (hence order and multiplicity are preserved), and the empty string
maps to the empty string. -/
theorem sanitizer_removes_exactly_invalid (s : String) :
    (limpiar_nombre_archivo s).data.Sublist s.data ∧
    (∀ c ∈ (limpiar_nombre_archivo s).data, invalidChar c = false) ∧
    (∀ c, invalidChar c = false → (limpiar_nombre_archivo s).data.count c = s.data.count c) ∧
    limpiar_nombre_archivo "" = "" := by
  refine ⟨List.filter_sublist _, ?_, fun c hc => filter_not_invalid_count s c hc, rfl⟩
  intro c hc
  have := List.of_mem_filter (p := fun c => !(invalidChar c)) hc
  simpa using this

/-- Witness for the sanitizer theorem at a concrete input. -/
theorem sanitizer_removes_exactly_invalid_witness :
    (limpiar_nombre_archivo "a*b").data.count 'a' = "a*b".data.count 'a' :=
  (sanitizer_removes_exactly_invalid "a*b").2.2.1 'a' (by decide)

/-- C10: a request whose JSON body carries a non-string `recipientName` (for
example `null`) makes the handler raise before the `alumniName` validation
runs — `data.get('recipientName', '').strip()` is evaluated at the top of the
handler, outside the `try` block — so the response is an unhandled exception
(HTTP 500) for every `alumniName`, including a missing one, and the folio
counter is unchanged. -/
theorem coupon_nonstring_recipient_crashes (alumni : Option String) (img : Bool) (folio : Nat) :
    generate_coupon ⟨alumni, .nonString⟩ img folio = (.crash, folio) := rfl

/-- C4 counterexample: an `alumniName` consisting only of whitespace is truthy
in Python, so `generate_coupon` accepts it and consumes a folio: from counter
36 the call succeeds with folio `"0037"` and the counter moves to 37, whereas
the claim demands a 400 validation error with the counter left at 36. -/
theorem coupon_whitespace_consumes_folio :
    generate_coupon ⟨some " ", .absent⟩ true 36 = (.ok "0037", 37) ∧
    (generate_coupon ⟨some " ", .absent⟩ true 36).2 ≠ 36 := by decide

/-- C4 (amended): a request whose `alumniName` is missing or is the empty
string (the values that are falsy for `not alumni_name`) gets the 400
validation error and leaves the folio counter unchanged, provided
`recipientName` is absent or a string; a subsequent call therefore behaves
exactly as if the rejected call had never happened.  (Whitespace-only names
are accepted and do consume a folio.) -/
theorem coupon_validation_amended (alumni : Option String) (rcp : RecipientField)
    (img : Bool) (folio : Nat)
    (hA : alumniFalsy alumni = true) (hR : rcp ≠ .nonString) :
    generate_coupon ⟨alumni, rcp⟩ img folio = (.badRequest msgAlumniObligatorio, folio) ∧
    ∀ s2 img2,
      generate_coupon (couponBodyOf s2) img2 (generate_coupon ⟨alumni, rcp⟩ img folio).2 =
        generate_coupon (couponBodyOf s2) img2 folio := by
  have h1 : generate_coupon ⟨alumni, rcp⟩ img folio = (.badRequest msgAlumniObligatorio, folio) := by
    cases rcp with
    | nonString => exact absurd rfl hR
    | absent => simp [generate_coupon, stripRecipient, hA]
    | str r => simp [generate_coupon, stripRecipient, hA]
  exact ⟨h1, fun s2 img2 => by rw [h1]⟩

/-- Witness for the amended validation theorem: empty alumni name at counter 36. -/
theorem coupon_validation_amended_witness :
    generate_coupon ⟨some "", .absent⟩ true 36 = (.badRequest msgAlumniObligatorio, 36) :=
  (coupon_validation_amended (some "") .absent true 36 (by decide) (by decide)).1

/-- C7: once `alumniName` passes validation (and the recipient field does not
itself raise), the folio counter is incremented before the image is loaded, and
the increment persists when the request then fails because the base coupon
image is missing (`FileNotFoundError` → 500, no rollback). -/
theorem folio_consumed_on_failure (s : String) (rcp : RecipientField) (img : Bool) (folio : Nat)
    (hs : s ≠ "") (hR : rcp ≠ .nonString) :
    (generate_coupon ⟨some s, rcp⟩ img folio).2 = folio + 1 ∧
    generate_coupon ⟨some s, rcp⟩ false folio =
      (.resourceError msgArchivoNoEncontrado, folio + 1) := by
  cases rcp with
  | nonString => exact absurd rfl hR
  | absent =>
    refine ⟨?_, ?_⟩ <;> cases img <;> simp [generate_coupon, stripRecipient, alumniFalsy, hs]
  | str r =>
    refine ⟨?_, ?_⟩ <;> cases img <;> simp [generate_coupon, stripRecipient, alumniFalsy, hs]

/-- Witness for the folio-consumed-on-failure theorem. -/
theorem folio_consumed_on_failure_witness :
    generate_coupon ⟨some "JUAN", .absent⟩ false 36 =
      (.resourceError msgArchivoNoEncontrado, 37) :=
  (folio_consumed_on_failure "JUAN" .absent false 36 (by decide) (by decide)).2

theorem counterAfter_add (names : Nat → String) (h : ∀ i, names i ≠ "") :
    ∀ k, counterAfter names k = 36 + k := by
  intro k
  induction k with
  | zero => rfl
  | succ k ih =>
    have hk := h k
    simp [counterAfter, ih, generate_coupon, couponBodyOf, stripRecipient, alumniFalsy, hk,
      Nat.add_assoc]

/-- C6: starting from counter value 36, with every request carrying a
non-empty alumni name and the base image available, the `N`-th successful
coupon generation (`N ≥ 1`) responds with folio `str(36 + N).zfill(4)` —
the counter is incremented exactly once per successful generation and rendered
as a zero-padded 4-digit decimal. -/
theorem folio_sequence (names : Nat → String) (h : ∀ i, names i ≠ "")
    (N : Nat) (hN : 1 ≤ N) :
    nthCouponResp names N = .ok (zfill 4 (natStr (36 + N))) := by
  obtain ⟨M, rfl⟩ : ∃ M, N = M + 1 := ⟨N - 1, (Nat.succ_pred_eq_of_pos hN).symm⟩
  have hc := counterAfter_add names h M
  have hm := h M
  simp [nthCouponResp, hc, generate_coupon, couponBodyOf, stripRecipient, alumniFalsy, hm,
    Nat.add_assoc]

/-- Witness: the first successful generation returns folio `"0037"`. -/
theorem folio_sequence_witness : nthCouponResp (fun _ => "JUAN") 1 = .ok "0037" := by
  rw [folio_sequence (fun _ => "JUAN") (fun _ => by show ("JUAN" : String) ≠ ""; decide) 1
    (by decide)]
  decide

theorem buscarNombre_some (ls : List String) : ∀ p, buscarNombre (some p) ls =
    (firstAnchor ls).map
      (fun j => if j = 0 then pyStrip p else pyStrip (ls.getD (j - 1) "")) := by
  induction ls with
  | nil => intro p; rfl
  | cons l rest ih =>
    intro p
    by_cases h : containsSub l anchorText = true
    · simp [buscarNombre, firstAnchor, h]
    · have hb : containsSub l anchorText = false := by simpa using h
      rw [show buscarNombre (some p) (l :: rest) = buscarNombre (some l) rest by
            simp [buscarNombre, hb],
          show firstAnchor (l :: rest) = (firstAnchor rest).map (fun j => j + 1) by
            simp [firstAnchor, hb],
          ih l]
      cases hfa : firstAnchor rest with
      | none => rfl
      | some j =>
        cases j with
        | zero => simp
        | succ j2 => simp

theorem buscarNombre_none_cons (l0 : String) (rest : List String) :
    buscarNombre none (l0 :: rest) = buscarNombre (some l0) rest := by
  by_cases h : containsSub l0 anchorText = true <;> simp [buscarNombre, h]

theorem splitLinesAux_ne_nil (cs : List Char) : ∀ acc, splitLinesAux cs acc ≠ [] := by
  induction cs with
  | nil => intro acc; simp [splitLinesAux]
  | cons c rest ih =>
    intro acc
    by_cases h : c = '\n' <;> simp [splitLinesAux, h, ih]

/-- C1: the Document Name Extractor agrees with the spec description on every
input text: scanning the lines in order, the first line that contains the
anchor substring and is not the first line determines the result — the
immediately preceding line with surrounding whitespace trimmed; if no line
contains the anchor, or the anchor occurs only in the first line, the result
is `none`. -/
theorem extractor_refines_spec (texto : String) :
    extraerNombre texto = specExtractName (splitLines texto) := by
  cases hls : splitLines texto with
  | nil => exact absurd hls (splitLinesAux_ne_nil texto.data [])
  | cons l0 rest =>
    unfold extraerNombre
    rw [hls, buscarNombre_none_cons, buscarNombre_some]
    cases hfa : firstAnchor rest with
    | none => simp [specExtractName, hfa]
    | some j =>
      cases j with
      | zero => simp [specExtractName, hfa]
      | succ j2 => simp [specExtractName, hfa]

theorem decodeDec_append_last (l : List Char) (c : Char) :
    decodeDec (l ++ [c]) = decodeDec l * 10 + (c.toNat - 48) := by
  simp [decodeDec, List.foldl_append]

theorem digitChar_decode (n : Nat) (h : n < 10) : (Nat.digitChar n).toNat - 48 = n := by
  have hfin : ∀ m : Fin 10, (Nat.digitChar m.val).toNat - 48 = m.val := by decide
  exact hfin ⟨n, h⟩

theorem decode_toDecCore : ∀ fuel n, n < fuel → decodeDec (toDecCore fuel n) = n := by
  intro fuel
  induction fuel with
  | zero => intro n h; omega
  | succ fuel ih =>
    intro n h
    by_cases h10 : n < 10
    · rw [toDecCore, if_pos h10]
      have := digitChar_decode n h10
      simp [decodeDec, this]
    · rw [toDecCore, if_neg h10, decodeDec_append_last,
        ih (n / 10) (by omega), digitChar_decode (n % 10) (Nat.mod_lt n (by omega))]
      omega

theorem natStr_data_inj (a b : Nat) (h : (natStr a).data = (natStr b).data) : a = b := by
  have ha := decode_toDecCore (a + 1) a (Nat.lt_succ_self a)
  have hb := decode_toDecCore (b + 1) b (Nat.lt_succ_self b)
  have hd : toDecCore (a + 1) a = toDecCore (b + 1) b := h
  rw [hd] at ha
  omega

theorem toDecCore_ne_nil (fuel n : Nat) : toDecCore (fuel + 1) n ≠ [] := by
  rw [toDecCore]
  by_cases h : n < 10 <;> simp [h]

theorem natStr_length_pos (n : Nat) : 1 ≤ (natStr n).length := by
  have := toDecCore_ne_nil n n
  have hlen : (natStr n).length = (toDecCore (n + 1) n).length := rfl
  rw [hlen]
  cases hc : toDecCore (n + 1) n with
  | nil => exact absurd hc this
  | cons c cs => simp

theorem pySplitext_join (p : String) : (pySplitext p).1 ++ (pySplitext p).2 = p := by
  unfold pySplitext
  cases h : idxOfDotFromEnd p.data with
  | none => simp
  | some i =>
    dsimp only
    by_cases hall : ((p.data.take i).all fun c => decide (c = '.')) = true
    · rw [if_pos hall]
      simp
    · rw [if_neg hall]
      show String.mk (p.data.take i ++ p.data.drop i) = p
      rw [List.take_append_drop]

theorem candidato_zero (nuevo : String) : candidato nuevo 0 = nuevo := rfl

theorem candidato_pos (nuevo : String) (k : Nat) (hk : k ≠ 0) :
    candidato nuevo k = (pySplitext nuevo).1 ++ "_" ++ natStr k ++ (pySplitext nuevo).2 := by
  rw [candidato, if_neg hk]

theorem candidato_injective (nuevo : String) : Function.Injective (candidato nuevo) := by
  have hjoinlen : nuevo.length = (pySplitext nuevo).1.length + (pySplitext nuevo).2.length := by
    conv_lhs => rw [← pySplitext_join nuevo]
    rw [String.length_append]
  have hunder : ("_" : String).length = 1 := rfl
  intro a b h
  rcases Nat.eq_zero_or_pos a with ha | ha <;> rcases Nat.eq_zero_or_pos b with hb | hb
  · omega
  · exfalso
    subst ha
    rw [candidato_zero, candidato_pos nuevo b (by omega)] at h
    have hlen := congrArg String.length h
    have hb1 := natStr_length_pos b
    simp only [String.length_append, hunder] at hlen
    omega
  · exfalso
    subst hb
    rw [candidato_pos nuevo a (by omega), candidato_zero] at h
    have hlen := congrArg String.length h
    have ha1 := natStr_length_pos a
    simp only [String.length_append, hunder] at hlen
    omega
  · rw [candidato_pos nuevo a (by omega), candidato_pos nuevo b (by omega)] at h
    have hd := congrArg String.data h
    simp only [String.data_append, List.append_assoc] at hd
    have hd2 := List.append_cancel_left hd
    have hd3 := List.append_cancel_left hd2
    have hd4 := List.append_cancel_right hd3
    exact natStr_data_inj a b hd4

theorem exists_candidato_free (existing : List String) (nuevo : String) :
    ∃ k, k ≤ existing.length ∧ candidato nuevo k ∉ existing := by
  by_contra hcon
  push_neg at hcon
  have hmap : ((List.range (existing.length + 1)).map (candidato nuevo)).Nodup :=
    (List.nodup_range _).map (candidato_injective nuevo)
  have hsub : ((List.range (existing.length + 1)).map (candidato nuevo)) ⊆ existing := by
    intro x hx
    simp only [List.mem_map, List.mem_range] at hx
    obtain ⟨k, hk, rfl⟩ := hx
    exact hcon k (Nat.lt_succ_iff.mp hk)
  have h1 : ((List.range (existing.length + 1)).map (candidato nuevo)).toFinset.card
      = existing.length + 1 := by
    rw [List.toFinset_card_of_nodup hmap]
    simp
  have h2 : ((List.range (existing.length + 1)).map (candidato nuevo)).toFinset
      ⊆ existing.toFinset := by
    intro x hx
    rw [List.mem_toFinset] at hx ⊢
    exact hsub hx
  have h3 := Finset.card_le_card h2
  have h4 := List.toFinset_card_le existing
  omega

theorem buscarLibre_finds (existing : List String) (nuevo : String) (K : Nat)
    (hKfree : candidato nuevo K ∉ existing)
    (hKmin : ∀ j, j < K → candidato nuevo j ∈ existing) :
    ∀ fuel c, 1 ≤ c → c - 1 ≤ K → K + 1 ≤ (c - 1) + fuel →
      buscarLibre existing (pySplitext nuevo).1 (pySplitext nuevo).2 fuel
        (candidato nuevo (c - 1)) c = candidato nuevo K := by
  intro fuel
  induction fuel with
  | zero => intro c h1 h2 h3; omega
  | succ fuel ih =>
    intro c h1 h2 h3
    rw [buscarLibre]
    by_cases hc : c - 1 = K
    · rw [hc]
      have hfalse : existing.contains (candidato nuevo K) = false := by
        by_contra hcon
        exact hKfree (List.elem_iff.mp (by simpa using hcon))
      rw [hfalse]
      simp
    · have hlt : c - 1 < K := lt_of_le_of_ne h2 hc
      have hmem : candidato nuevo (c - 1) ∈ existing := hKmin _ hlt
      have htrue : existing.contains (candidato nuevo (c - 1)) = true :=
        List.elem_iff.mpr hmem
      rw [htrue]
      simp only [if_true]
      have hcand : (pySplitext nuevo).1 ++ "_" ++ natStr c ++ (pySplitext nuevo).2
          = candidato nuevo ((c + 1) - 1) := by
        rw [Nat.add_sub_cancel, candidato_pos nuevo c (by omega)]
      rw [hcand]
      exact ih (c + 1) (by omega) (by omega) (by omega)

theorem resolveTarget_spec (existing : List String) (nuevo : String) :
    ∃ K, resolveTarget existing nuevo = candidato nuevo K ∧
      candidato nuevo K ∉ existing ∧ ∀ j, j < K → candidato nuevo j ∈ existing := by
  obtain ⟨k0, hk0le, hk0⟩ := exists_candidato_free existing nuevo
  have hex : ∃ k, candidato nuevo k ∉ existing := ⟨k0, hk0⟩
  have hKfree : candidato nuevo (Nat.find hex) ∉ existing := Nat.find_spec hex
  have hKmin : ∀ j, j < Nat.find hex → candidato nuevo j ∈ existing := by
    intro j hj
    have h2 := Nat.find_min hex hj
    exact not_not.mp h2
  have hKle : Nat.find hex ≤ existing.length := (Nat.find_min' hex hk0).trans hk0le
  refine ⟨Nat.find hex, ?_, hKfree, hKmin⟩
  unfold resolveTarget
  have hloop := buscarLibre_finds existing nuevo (Nat.find hex) hKfree hKmin
    (existing.length + 1) 1 (le_refl 1) (by omega) (by omega)
  simpa [candidato_zero] using hloop

/-- The target name chosen by the collision loop never collides with an
existing path. -/
theorem resolveTarget_free (existing : List String) (nuevo : String) :
    resolveTarget existing nuevo ∉ existing := by
  obtain ⟨K, hK, hfree, _⟩ := resolveTarget_spec existing nuevo
  rw [hK]
  exact hfree

theorem idxOfDotFromEnd_append (l m : List Char) :
    idxOfDotFromEnd (l ++ m) =
      match idxOfDotFromEnd m with
      | some i => some (l.length + i)
      | none => idxOfDotFromEnd l := by
  induction l with
  | nil =>
    cases h : idxOfDotFromEnd m <;> simp [idxOfDotFromEnd, h]
  | cons c rest ih =>
    rw [List.cons_append, idxOfDotFromEnd, ih]
    cases h : idxOfDotFromEnd m with
    | some i =>
      simp only [idxOfDotFromEnd, List.length_cons]
      congr 1
      omega
    | none =>
      rfl

theorem pySplitext_concat_pdf (X : String)
    (hX : (X.data.any fun c => !(decide (c = '.'))) = true) :
    pySplitext (X ++ ".pdf") = (X, ".pdf") := by
  have hpdf : idxOfDotFromEnd (".pdf" : String).data = some 0 := rfl
  have hidx : idxOfDotFromEnd (X ++ ".pdf" : String).data = some X.data.length := by
    rw [String.data_append, idxOfDotFromEnd_append, hpdf]
    simp
  have htake : (X ++ ".pdf" : String).data.take X.data.length = X.data := by
    rw [String.data_append]
    exact List.take_left X.data _
  have hdrop : (X ++ ".pdf" : String).data.drop X.data.length = (".pdf" : String).data := by
    rw [String.data_append]
    exact List.drop_left X.data _
  have hall : ((X ++ ".pdf" : String).data.take X.data.length).all
      (fun c => decide (c = '.')) = false := by
    rw [htake]
    obtain ⟨c, hc, hcd⟩ := List.any_eq_true.mp hX
    refine List.all_eq_false.mpr ⟨c, hc, ?_⟩
    simpa using hcd
  unfold pySplitext
  rw [hidx]
  dsimp only
  have hcond : ¬((((X ++ ".pdf" : String).data.take X.data.length).all
      fun c => decide (c = '.')) = true) := by
    rw [hall]
    simp
  rw [if_neg hcond, htake, hdrop]

theorem processOne_collision (dir n t s : String) (fs : List FileEntry)
    (hfind : fs.find? (fun e => e.name == n) = some ⟨n, .pages (some t)⟩)
    (ht : t ≠ "") (hx : buscarNombre none (splitLines t) = some s) (hs : s ≠ "")
    (hneq : limpiar_nombre_archivo s ++ ".pdf" ≠ n) :
    processOne dir fs n =
      (renameEntry fs n
        (resolveTarget (fs.map (fun e2 => e2.name)) (limpiar_nombre_archivo s ++ ".pdf")),
       .renamed (relPath dir n)
        (relPath dir
          (resolveTarget (fs.map (fun e2 => e2.name)) (limpiar_nombre_archivo s ++ ".pdf")))) := by
  simp [processOne, hfind, ht, hx, hs, hneq]

/-- C2 (amended): when a processed document's sanitized candidate name differs
from its current name and a file already exists at the candidate path, the
engine renames the document, within the same directory, to `candidato nuevo K`
for the first unused index `K ≥ 1` — every earlier candidate (including the
plain candidate itself) already exists and the chosen one does not.  The
numeric suffix is placed before the extension as computed by `os.path.splitext`:
whenever the sanitized name contains a non-dot character this is before
`".pdf"` (`Juan Perez_1.pdf`, `Juan Perez_2.pdf`, …); for an empty or all-dots
sanitized name the candidate (`".pdf"`, `"..pdf"`, …) has no recognized
extension and the suffix lands after it (e.g. `".pdf_1"`). -/
theorem rename_collision_policy_amended (dir n t s : String) (fs : List FileEntry)
    (hfind : fs.find? (fun e => e.name == n) = some ⟨n, .pages (some t)⟩)
    (ht : t ≠ "") (hx : buscarNombre none (splitLines t) = some s) (hs : s ≠ "")
    (hneq : limpiar_nombre_archivo s ++ ".pdf" ≠ n)
    (hex : (limpiar_nombre_archivo s ++ ".pdf") ∈ fs.map (fun e2 => e2.name)) :
    ∃ K, 1 ≤ K ∧
      processOne dir fs n =
        (renameEntry fs n (candidato (limpiar_nombre_archivo s ++ ".pdf") K),
         .renamed (relPath dir n)
           (relPath dir (candidato (limpiar_nombre_archivo s ++ ".pdf") K))) ∧
      candidato (limpiar_nombre_archivo s ++ ".pdf") K ∉ fs.map (fun e2 => e2.name) ∧
      (∀ j, j < K →
        candidato (limpiar_nombre_archivo s ++ ".pdf") j ∈ fs.map (fun e2 => e2.name)) ∧
      (((limpiar_nombre_archivo s).data.any fun c => !(decide (c = '.'))) = true →
        candidato (limpiar_nombre_archivo s ++ ".pdf") K =
          limpiar_nombre_archivo s ++ "_" ++ natStr K ++ ".pdf") := by
  obtain ⟨K, hKeq, hKfree, hKmin⟩ :=
    resolveTarget_spec (fs.map (fun e2 => e2.name)) (limpiar_nombre_archivo s ++ ".pdf")
  have hK1 : 1 ≤ K := by
    rcases Nat.eq_zero_or_pos K with h0 | h1
    · exfalso
      rw [h0, candidato_zero] at hKfree
      exact hKfree hex
    · exact h1
  refine ⟨K, hK1, ?_, hKfree, hKmin, ?_⟩
  · rw [processOne_collision dir n t s fs hfind ht hx hs hneq, hKeq]
  · intro hnd
    rw [candidato_pos _ K (by omega), pySplitext_concat_pdf (limpiar_nombre_archivo s) hnd]

/-- Witness for the amended collision theorem, matching the claim's own
example: with `"Juan Perez.pdf"` present, the colliding document `b.pdf`
becomes `"Juan Perez_1.pdf"`. -/
theorem rename_collision_policy_amended_witness :
    (processOne "" juanFs "b.pdf").2 = .renamed "b.pdf" "Juan Perez_1.pdf" := by
  obtain ⟨K, hK1, heq, hfree, hmin, hdot⟩ :=
    rename_collision_policy_amended "" "b.pdf" (textoCon "Juan Perez") "Juan Perez" juanFs
      (by decide) (by decide) (by decide) (by decide) (by decide) (by decide)
  have hK2 : K < 2 := by
    by_contra hcon
    have hm := hmin 1 (by omega)
    revert hm
    decide
  have hK : K = 1 := by omega
  subst hK
  rw [heq]
  decide

/-- C2 counterexample: a document whose extracted name sanitizes to the empty
string has candidate name `".pdf"`; with `".pdf"` already present the engine
renames it to `".pdf_1"` — the numeric suffix is appended after `".pdf"`, not
before the extension as the claim states (which would give `"_1.pdf"`). -/
theorem rename_collision_dotfile_counterexample :
    (renombrarTree [⟨"", puntoPdfTree⟩]).2 =
      [.warning (msgSinPaginas ".pdf"), .renamed "a.pdf" ".pdf_1"] ∧
    (".pdf_1" : String) ≠ "_1.pdf" := by decide

theorem renameEntry_names (fs : List FileEntry) (n t : String) :
    (renameEntry fs n t).map (fun x => x.name) =
      (fs.map (fun x => x.name)).map (fun y => if y == n then t else y) := by
  induction fs with
  | nil => rfl
  | cons e fs ih =>
    show ((if e.name == n then (⟨t, e.data⟩ : FileEntry) else e).name) ::
        (renameEntry fs n t).map (fun x => x.name) =
      (if e.name == n then t else e.name) ::
        (fs.map (fun x => x.name)).map (fun y => if y == n then t else y)
    rw [ih]
    by_cases hb : (e.name == n) = true
    · rw [if_pos hb, if_pos hb]
    · rw [if_neg hb, if_neg hb]

theorem nodup_rename_names (l : List String) (n t : String)
    (hnd : l.Nodup) (ht : t ∉ l) :
    (l.map (fun y => if y == n then t else y)).Nodup := by
  induction l with
  | nil => simp
  | cons x l ih =>
    rw [List.nodup_cons] at hnd
    have htl : t ∉ l := fun hc => ht (List.mem_cons_of_mem x hc)
    have htx : t ≠ x := fun hc => ht (hc ▸ List.mem_cons_self x l)
    rw [List.map_cons, List.nodup_cons]
    refine ⟨?_, ih hnd.2 htl⟩
    intro hmem
    obtain ⟨y, hy, hyeq⟩ := List.mem_map.mp hmem
    by_cases hyn : (y == n) = true
    · rw [if_pos hyn] at hyeq
      by_cases hxn : (x == n) = true
      · rw [if_pos hxn] at hyeq
        have hxv : x = n := by simpa using hxn
        have hyv : y = n := by simpa using hyn
        exact hnd.1 (hxv ▸ hyv ▸ hy)
      · rw [if_neg hxn] at hyeq
        exact htx hyeq
    · rw [if_neg hyn] at hyeq
      by_cases hxn : (x == n) = true
      · rw [if_pos hxn] at hyeq
        exact htl (hyeq ▸ hy)
      · rw [if_neg hxn] at hyeq
        exact hnd.1 (hyeq ▸ hy)

theorem find?_name_of_nodup (fs : List FileEntry) (e : FileEntry)
    (he : e ∈ fs) (hnd : (fs.map (fun x => x.name)).Nodup) :
    fs.find? (fun x => x.name == e.name) = some e := by
  induction fs with
  | nil => cases he
  | cons f fs ih =>
    rw [List.map_cons, List.nodup_cons] at hnd
    rcases List.mem_cons.mp he with rfl | he2
    · rw [List.find?_cons]
      simp
    · have hne : (f.name == e.name) = false := by
        by_contra hcon
        have heq : f.name = e.name := by
          have : (f.name == e.name) = true := by
            cases hb : (f.name == e.name)
            · exact absurd hb hcon
            · rfl
          simpa using this
        exact hnd.1 (heq ▸ List.mem_map_of_mem (fun x => x.name) he2)
      rw [List.find?_cons, hne]
      exact ih he2 hnd.2

theorem processOne_state (dir : String) (fs : List FileEntry) (n : String) :
    (processOne dir fs n).1 = fs ∨
    ∃ target, target ∉ fs.map (fun e2 => e2.name) ∧
      (processOne dir fs n).1 = renameEntry fs n target := by
  cases hfind : fs.find? (fun e => e.name == n) with
  | none => exact Or.inl (by simp [processOne, hfind])
  | some e =>
    obtain ⟨ename, edata⟩ := e
    cases edata with
    | raisesError m => exact Or.inl (by simp [processOne, hfind])
    | noPages => exact Or.inl (by simp [processOne, hfind])
    | pages t? =>
      cases t? with
      | none => exact Or.inl (by simp [processOne, hfind])
      | some t =>
        by_cases ht : t = ""
        · exact Or.inl (by simp [processOne, hfind, ht])
        · cases hb : buscarNombre none (splitLines t) with
          | none => exact Or.inl (by simp [processOne, hfind, ht, hb])
          | some s =>
            by_cases hs : s = ""
            · exact Or.inl (by simp [processOne, hfind, ht, hb, hs])
            · by_cases hnuevo : limpiar_nombre_archivo s ++ ".pdf" = n
              · exact Or.inl (by simp [processOne, hfind, ht, hb, hs, hnuevo])
              · refine Or.inr ⟨resolveTarget (fs.map (fun e2 => e2.name))
                  (limpiar_nombre_archivo s ++ ".pdf"), resolveTarget_free _ _, ?_⟩
                simp [processOne, hfind, ht, hb, hs, hnuevo]

theorem processOne_preserves (dir : String) (fs : List FileEntry) (n : String)
    (e : FileEntry) (he : e ∈ fs) (hne : e.name ≠ n)
    (hnd : (fs.map (fun x => x.name)).Nodup) :
    e ∈ (processOne dir fs n).1 ∧
      ((processOne dir fs n).1.map (fun x => x.name)).Nodup := by
  rcases processOne_state dir fs n with h | ⟨target, htfree, h⟩
  · rw [h]
    exact ⟨he, hnd⟩
  · rw [h]
    constructor
    · have : (if e.name == n then (⟨target, e.data⟩ : FileEntry) else e) = e := by
        rw [if_neg (by simpa using hne)]
      rw [← this]
      exact List.mem_map_of_mem _ he
    · rw [renameEntry_names]
      exact nodup_rename_names _ n target hnd htfree

theorem runDirAux_untouched (dir : String) (ns : List String) :
    ∀ fs : List FileEntry, ∀ e : FileEntry, e ∈ fs → e.name ∉ ns →
      (fs.map (fun x => x.name)).Nodup →
      e ∈ (runDirAux dir ns fs).1 ∧
        ((runDirAux dir ns fs).1.map (fun x => x.name)).Nodup := by
  induction ns with
  | nil => intro fs e he _ hnd; exact ⟨he, hnd⟩
  | cons n ns ih =>
    intro fs e he hns hnd
    have hne : e.name ≠ n := fun hc => hns (hc ▸ List.mem_cons_self n ns)
    have hns2 : e.name ∉ ns := fun hc => hns (List.mem_cons_of_mem n hc)
    by_cases hpdf : esNombrePdf n = true
    · have hstep := processOne_preserves dir fs n e he hne hnd
      rw [show runDirAux dir (n :: ns) fs =
          ((runDirAux dir ns (processOne dir fs n).1).1,
           (processOne dir fs n).2 :: (runDirAux dir ns (processOne dir fs n).1).2.1,
           (runDirAux dir ns (processOne dir fs n).1).2.2 + 1) from ?_]
      · exact ih (processOne dir fs n).1 e hstep.1 hns2 hstep.2
      · rw [runDirAux, if_pos hpdf]
    · rw [runDirAux, if_neg hpdf]
      exact ih fs e he hns2 hnd

theorem runDirAux_cons_pdf (dir : String) (n : String) (ns : List String)
    (fs : List FileEntry) (hpdf : esNombrePdf n = true) :
    runDirAux dir (n :: ns) fs =
      ((runDirAux dir ns (processOne dir fs n).1).1,
       (processOne dir fs n).2 :: (runDirAux dir ns (processOne dir fs n).1).2.1,
       (runDirAux dir ns (processOne dir fs n).1).2.2 + 1) := by
  rw [runDirAux, if_pos hpdf]

theorem runDirAux_cons_other (dir : String) (n : String) (ns : List String)
    (fs : List FileEntry) (hpdf : esNombrePdf n = false) :
    runDirAux dir (n :: ns) fs = runDirAux dir ns fs := by
  rw [runDirAux, if_neg (by simp [hpdf])]

theorem runDirAux_append (dir : String) (ns1 ns2 : List String) :
    ∀ fs : List FileEntry,
      runDirAux dir (ns1 ++ ns2) fs =
        ((runDirAux dir ns2 (runDirAux dir ns1 fs).1).1,
         (runDirAux dir ns1 fs).2.1 ++ (runDirAux dir ns2 (runDirAux dir ns1 fs).1).2.1,
         (runDirAux dir ns1 fs).2.2 + (runDirAux dir ns2 (runDirAux dir ns1 fs).1).2.2) := by
  induction ns1 with
  | nil => intro fs; simp [runDirAux]
  | cons n ns ih =>
    intro fs
    by_cases hpdf : esNombrePdf n = true
    · rw [List.cons_append, runDirAux_cons_pdf dir n (ns ++ ns2) fs hpdf, ih,
        runDirAux_cons_pdf dir n ns fs hpdf]
      dsimp only
      rw [List.cons_append, Nat.add_right_comm]
    · have hp : esNombrePdf n = false := by
        cases hb : esNombrePdf n
        · rfl
        · exact absurd hb hpdf
      rw [List.cons_append, runDirAux_cons_other dir n (ns ++ ns2) fs hp, ih,
        runDirAux_cons_other dir n ns fs hp]

theorem runDirAux_count (dir : String) (ns : List String) :
    ∀ fs : List FileEntry,
      (runDirAux dir ns fs).2.1.length = (ns.filter esNombrePdf).length ∧
      (runDirAux dir ns fs).2.2 = (ns.filter esNombrePdf).length := by
  induction ns with
  | nil => intro fs; exact ⟨rfl, rfl⟩
  | cons n ns ih =>
    intro fs
    by_cases hpdf : esNombrePdf n = true
    · rw [runDirAux_cons_pdf dir n ns fs hpdf]
      have := ih (processOne dir fs n).1
      simp [List.filter_cons, hpdf, this.1, this.2]
    · have hp : esNombrePdf n = false := by
        cases hb : esNombrePdf n
        · rfl
        · exact absurd hb hpdf
      rw [runDirAux_cons_other dir n ns fs hp]
      have := ih fs
      simp [List.filter_cons, hp, this.1, this.2]

theorem runTreeAux_cons (d : DirState) (ds : List DirState) :
    runTreeAux (d :: ds) =
      (⟨d.dir, (runDir d).1⟩ :: (runTreeAux ds).1,
       (runDir d).2.1 ++ (runTreeAux ds).2.1,
       (runDir d).2.2 + (runTreeAux ds).2.2) := by
  rw [runTreeAux]

theorem runTreeAux_count (dirs : List DirState) :
    (runTreeAux dirs).2.1.length = totalPdfs dirs ∧
    (runTreeAux dirs).2.2 = totalPdfs dirs := by
  induction dirs with
  | nil => exact ⟨rfl, rfl⟩
  | cons d ds ih =>
    rw [runTreeAux_cons]
    have hd := runDirAux_count d.dir (d.files.map (fun e => e.name)) d.files
    constructor
    · show ((runDir d).2.1 ++ (runTreeAux ds).2.1).length = _
      rw [List.length_append, ih.1]
      show (runDirAux d.dir (d.files.map (fun e => e.name)) d.files).2.1.length + _ = _
      rw [hd.1]
      rfl
    · show (runDir d).2.2 + (runTreeAux ds).2.2 = _
      rw [ih.2]
      show (runDirAux d.dir (d.files.map (fun e => e.name)) d.files).2.2 + _ = _
      rw [hd.2]
      rfl

theorem error_mem_advertencias (outs : List Outcome) (msg : String)
    (h : Outcome.error msg ∈ outs) : msg ∈ advertenciasErrores outs := by
  rw [advertenciasErrores, List.mem_filterMap]
  exact ⟨Outcome.error msg, h, rfl⟩

theorem runDir_error_mem (ddir : String) (fpre fpost : List FileEntry) (n m : String)
    (hpdf : esNombrePdf n = true)
    (hnd : ((fpre ++ ⟨n, PdfData.raisesError m⟩ :: fpost).map (fun x => x.name)).Nodup) :
    Outcome.error (msgProcesarError (relPath ddir n) m) ∈
      (runDir ⟨ddir, fpre ++ ⟨n, PdfData.raisesError m⟩ :: fpost⟩).2.1 := by
  unfold runDir
  dsimp only
  have hsnap : (fpre ++ (⟨n, PdfData.raisesError m⟩ : FileEntry) :: fpost).map
      (fun e => e.name) =
      fpre.map (fun e => e.name) ++ n :: fpost.map (fun e => e.name) := by
    simp
  rw [hsnap, runDirAux_append]
  have hmem : (⟨n, PdfData.raisesError m⟩ : FileEntry) ∈
      fpre ++ (⟨n, PdfData.raisesError m⟩ : FileEntry) :: fpost :=
    List.mem_append_right _ (List.mem_cons_self _ _)
  have hnd2 : ((fpre ++ (⟨n, PdfData.raisesError m⟩ : FileEntry) :: fpost).map
      (fun x => x.name)).Nodup := hnd
  have hnotpre : n ∉ fpre.map (fun e => e.name) := by
    intro hc
    rw [hsnap] at hnd2
    have hdisj := List.disjoint_of_nodup_append hnd2
    exact hdisj hc (List.mem_cons_self _ _)
  have hstep := runDirAux_untouched ddir (fpre.map (fun e => e.name))
    (fpre ++ (⟨n, PdfData.raisesError m⟩ : FileEntry) :: fpost)
    (⟨n, PdfData.raisesError m⟩ : FileEntry) hmem hnotpre hnd
  have hfind : ((runDirAux ddir (fpre.map (fun e => e.name))
      (fpre ++ (⟨n, PdfData.raisesError m⟩ : FileEntry) :: fpost)).1.find?
      (fun x => x.name == n)) = some ⟨n, PdfData.raisesError m⟩ :=
    find?_name_of_nodup _ _ hstep.1 hstep.2
  have hpo : processOne ddir (runDirAux ddir (fpre.map (fun e => e.name))
      (fpre ++ (⟨n, PdfData.raisesError m⟩ : FileEntry) :: fpost)).1 n =
      ((runDirAux ddir (fpre.map (fun e => e.name))
        (fpre ++ (⟨n, PdfData.raisesError m⟩ : FileEntry) :: fpost)).1,
       Outcome.error (msgProcesarError (relPath ddir n) m)) := by
    simp [processOne, hfind]
  rw [runDirAux_cons_pdf _ _ _ _ hpdf, hpo]
  dsimp only
  exact List.mem_append_right _ (List.mem_cons_self _ _)

theorem runTreeAux_append (as bs : List DirState) :
    runTreeAux (as ++ bs) =
      ((runTreeAux as).1 ++ (runTreeAux bs).1,
       (runTreeAux as).2.1 ++ (runTreeAux bs).2.1,
       (runTreeAux as).2.2 + (runTreeAux bs).2.2) := by
  induction as with
  | nil => simp [runTreeAux]
  | cons d ds ih =>
    rw [List.cons_append, runTreeAux_cons, ih, runTreeAux_cons]
    dsimp only
    simp [List.append_assoc, Nat.add_assoc]

theorem totalPdfs_append (as bs : List DirState) :
    totalPdfs (as ++ bs) = totalPdfs as + totalPdfs bs := by
  induction as with
  | nil => simp [totalPdfs]
  | cons d ds ih => simp [totalPdfs, ih, Nat.add_assoc]

/-- C8: an exception raised while processing one PDF of the tree (modelled by a
`raisesError` entry) is caught and converted into an error message carrying
that file's path relative to the root, which lands in the issues list
(`advertencias_errores`); processing continues with every other file — the run
still records exactly one outcome per PDF file of the whole tree, so no single
failing file aborts the run. -/
theorem perfile_failure_contained (dpre dpost : List DirState) (ddir : String)
    (fpre fpost : List FileEntry) (n m : String)
    (hpdf : esNombrePdf n = true)
    (hnd : ((fpre ++ ⟨n, PdfData.raisesError m⟩ :: fpost).map (fun x => x.name)).Nodup) :
    msgProcesarError (relPath ddir n) m ∈
      advertenciasErrores
        (renombrarTree
          (dpre ++ ⟨ddir, fpre ++ ⟨n, PdfData.raisesError m⟩ :: fpost⟩ :: dpost)).2 ∧
    (renombrarTree
        (dpre ++ ⟨ddir, fpre ++ ⟨n, PdfData.raisesError m⟩ :: fpost⟩ :: dpost)).2.length =
      totalPdfs (dpre ++ ⟨ddir, fpre ++ ⟨n, PdfData.raisesError m⟩ :: fpost⟩ :: dpost) := by
  have hcount := runTreeAux_count
    (dpre ++ (⟨ddir, fpre ++ ⟨n, PdfData.raisesError m⟩ :: fpost⟩ : DirState) :: dpost)
  have hpos : totalPdfs
      (dpre ++ (⟨ddir, fpre ++ ⟨n, PdfData.raisesError m⟩ :: fpost⟩ : DirState) :: dpost)
      ≠ 0 := by
    rw [totalPdfs_append]
    have hn : n ∈ ((fpre ++ (⟨n, PdfData.raisesError m⟩ : FileEntry) :: fpost).map
        (fun e => e.name)).filter esNombrePdf := by
      rw [List.mem_filter]
      exact ⟨by simp, hpdf⟩
    have hlen : 0 < ((( fpre ++ (⟨n, PdfData.raisesError m⟩ : FileEntry) :: fpost).map
        (fun e => e.name)).filter esNombrePdf).length :=
      List.length_pos.mpr (List.ne_nil_of_mem hn)
    show _ + (_ + _) ≠ 0
    have : 0 < (((⟨ddir, fpre ++ ⟨n, PdfData.raisesError m⟩ :: fpost⟩ :
        DirState).files.map (fun e => e.name)).filter esNombrePdf).length := hlen
    omega
  have hmem0 : Outcome.error (msgProcesarError (relPath ddir n) m) ∈
      (runTreeAux
        (dpre ++ (⟨ddir, fpre ++ ⟨n, PdfData.raisesError m⟩ :: fpost⟩ : DirState) :: dpost)).2.1 := by
    rw [runTreeAux_append, runTreeAux_cons]
    dsimp only
    refine List.mem_append_right _ (List.mem_append_left _ ?_)
    exact runDir_error_mem ddir fpre fpost n m hpdf hnd
  unfold renombrarTree
  rcases hrt : runTreeAux
    (dpre ++ (⟨ddir, fpre ++ ⟨n, PdfData.raisesError m⟩ :: fpost⟩ : DirState) :: dpost)
    with ⟨ds, outs, k⟩
  have hk : k = totalPdfs
      (dpre ++ (⟨ddir, fpre ++ ⟨n, PdfData.raisesError m⟩ :: fpost⟩ : DirState) :: dpost) := by
    have := hcount.2
    rw [hrt] at this
    exact this
  have houts : outs.length = totalPdfs
      (dpre ++ (⟨ddir, fpre ++ ⟨n, PdfData.raisesError m⟩ :: fpost⟩ : DirState) :: dpost) := by
    have := hcount.1
    rw [hrt] at this
    exact this
  rw [hrt] at hmem0
  dsimp only at hmem0 ⊢
  rw [if_neg (by omega)]
  exact ⟨error_mem_advertencias outs _ hmem0, houts⟩

/-- Witness for the failure-containment theorem: a raising `x.pdf` followed by
a healthy `y.pdf` — the error message is recorded and both files get an
outcome. -/
theorem perfile_failure_contained_witness :
    msgProcesarError (relPath "" "x.pdf") "boom" ∈
      advertenciasErrores (renombrarTree arbolConError).2 ∧
    (renombrarTree arbolConError).2.length = totalPdfs arbolConError :=
  perfile_failure_contained [] [] "" []
    [⟨"y.pdf", .pages (some (textoCon "Ana Lopez"))⟩] "x.pdf" "boom"
    (by decide) (by decide)

theorem processOne_wellNamed (dir : String) (fs : List FileEntry) (n : String)
    (hmem : n ∈ fs.map (fun x => x.name))
    (hgood : ∀ e ∈ fs, esNombrePdf e.name = true → candidateOf e = some e.name)
    (hpdf : esNombrePdf n = true) :
    processOne dir fs n = (fs, .alreadyNamed (relPath dir n)) := by
  obtain ⟨e0, he0, hname0⟩ := List.mem_map.mp hmem
  have hsome : (fs.find? (fun x => x.name == n)).isSome := by
    rw [List.find?_isSome]
    exact ⟨e0, he0, by simp [hname0]⟩
  obtain ⟨e, hfind⟩ := Option.isSome_iff_exists.mp hsome
  have hemem : e ∈ fs := List.mem_of_find?_eq_some hfind
  have hename : e.name = n := by
    have := List.find?_some hfind
    simpa using this
  have hcand : candidateOf e = some n := by
    rw [← hename]
    exact hgood e hemem (by rw [hename]; exact hpdf)
  obtain ⟨en, ed⟩ := e
  have hen : en = n := hename
  subst hen
  cases ed with
  | raisesError m => simp [candidateOf] at hcand
  | noPages => simp [candidateOf] at hcand
  | pages t? =>
    cases t? with
    | none => simp [candidateOf] at hcand
    | some t =>
      by_cases ht : t = ""
      · simp [candidateOf, ht] at hcand
      · cases hb : buscarNombre none (splitLines t) with
        | none => simp [candidateOf, ht, hb] at hcand
        | some s =>
          by_cases hs : s = ""
          · simp [candidateOf, ht, hb, hs] at hcand
          · have heq : limpiar_nombre_archivo s ++ ".pdf" = en := by
              simp [candidateOf, ht, hb, hs] at hcand
              exact hcand
            simp [processOne, hfind, ht, hb, hs, heq]

theorem runDirAux_good (dir : String) (fs : List FileEntry)
    (hgood : ∀ e ∈ fs, esNombrePdf e.name = true → candidateOf e = some e.name) :
    ∀ ns : List String, (∀ x ∈ ns, x ∈ fs.map (fun e => e.name)) →
      runDirAux dir ns fs =
        (fs, (ns.filter esNombrePdf).map (fun x => Outcome.alreadyNamed (relPath dir x)),
         (ns.filter esNombrePdf).length) := by
  intro ns
  induction ns with
  | nil => intro _; rfl
  | cons n ns ih =>
    intro hns
    have hns2 : ∀ x ∈ ns, x ∈ fs.map (fun e => e.name) :=
      fun x hx => hns x (List.mem_cons_of_mem n hx)
    by_cases hpdf : esNombrePdf n = true
    · rw [runDirAux_cons_pdf dir n ns fs hpdf,
        processOne_wellNamed dir fs n (hns n (List.mem_cons_self n ns)) hgood hpdf]
      dsimp only
      rw [ih hns2]
      dsimp only
      simp [List.filter_cons, hpdf]
    · have hp : esNombrePdf n = false := by
        cases hb : esNombrePdf n
        · rfl
        · exact absurd hb hpdf
      rw [runDirAux_cons_other dir n ns fs hp, ih hns2]
      simp [List.filter_cons, hp]

theorem runTreeAux_good : ∀ dirs : List DirState,
    (∀ d ∈ dirs, ∀ e ∈ d.files, esNombrePdf e.name = true → candidateOf e = some e.name) →
    (runTreeAux dirs).1 = dirs ∧
    ∀ o ∈ (runTreeAux dirs).2.1, ∃ r, o = Outcome.alreadyNamed r := by
  intro dirs
  induction dirs with
  | nil =>
    intro _
    exact ⟨rfl, by simp [runTreeAux]⟩
  | cons d ds ih =>
    intro hgood
    have h1 := runDirAux_good d.dir d.files
      (fun e he hp => hgood d (List.mem_cons_self d ds) e he hp)
      (d.files.map (fun e => e.name)) (fun x hx => hx)
    have h2 := ih (fun d2 hd2 => hgood d2 (List.mem_cons_of_mem d hd2))
    rw [runTreeAux_cons]
    have hrd : (runDir d).1 = d.files := by
      unfold runDir
      rw [h1]
    constructor
    · dsimp only
      rw [hrd, h2.1]
    · dsimp only
      intro o ho
      rcases List.mem_append.mp ho with hl | hr
      · have : (runDir d).2.1 =
            ((d.files.map (fun e => e.name)).filter esNombrePdf).map
              (fun x => Outcome.alreadyNamed (relPath d.dir x)) := by
          unfold runDir
          rw [h1]
        rw [this] at hl
        obtain ⟨x, _, rfl⟩ := List.mem_map.mp hl
        exact ⟨relPath d.dir x, rfl⟩
      · exact h2.2 o hr

theorem totalPdfs_pos_of_mem : ∀ dirs : List DirState, ∀ d ∈ dirs, ∀ e ∈ d.files,
    esNombrePdf e.name = true → totalPdfs dirs ≠ 0 := by
  intro dirs
  induction dirs with
  | nil =>
    intro d hd
    cases hd
  | cons d0 ds ih =>
    intro d hd e he hpdf
    rcases List.mem_cons.mp hd with rfl | hd2
    · have hn : e.name ∈ (d.files.map (fun x => x.name)).filter esNombrePdf := by
        rw [List.mem_filter]
        exact ⟨List.mem_map_of_mem _ he, hpdf⟩
      have hlen := List.length_pos.mpr (List.ne_nil_of_mem hn)
      show ((d.files.map (fun x => x.name)).filter esNombrePdf).length + totalPdfs ds ≠ 0
      omega
    · have := ih d hd2 e he hpdf
      show ((d0.files.map (fun x => x.name)).filter esNombrePdf).length + totalPdfs ds ≠ 0
      omega

theorem goodTreeB_spec (dirs : List DirState) (h : goodTreeB dirs = true) :
    (∀ d ∈ dirs, ∀ e ∈ d.files, esNombrePdf e.name = true → candidateOf e = some e.name) ∧
    totalPdfs dirs ≠ 0 := by
  rw [goodTreeB, Bool.and_eq_true] at h
  obtain ⟨hany, hall⟩ := h
  refine ⟨?_, ?_⟩
  · intro d hd e he hpdf
    have h1 := List.all_eq_true.mp hall d hd
    have h2 := List.all_eq_true.mp h1 e he
    rw [hpdf] at h2
    simpa [bienNombrado] using h2
  · obtain ⟨d, hd, hde⟩ := List.any_eq_true.mp hany
    obtain ⟨e, he, hpdf⟩ := List.any_eq_true.mp hde
    exact totalPdfs_pos_of_mem dirs d hd e he hpdf

theorem renombrarTree_good (ds : List DirState)
    (hg : ∀ d ∈ ds, ∀ e ∈ d.files, esNombrePdf e.name = true → candidateOf e = some e.name)
    (hk : totalPdfs ds ≠ 0) :
    (renombrarTree ds).1 = ds ∧
    ∀ o ∈ (renombrarTree ds).2, ∃ r, o = Outcome.alreadyNamed r := by
  have h1 := runTreeAux_good ds hg
  have hc := (runTreeAux_count ds).2
  unfold renombrarTree
  rcases hrt : runTreeAux ds with ⟨ds2, outs, k⟩
  rw [hrt] at h1 hc
  dsimp only at h1 hc ⊢
  rw [if_neg (by omega)]
  exact ⟨h1.1, h1.2⟩

/-- C3 (amended): if the first run leaves the tree in a state where at least
one PDF exists and every PDF's sanitized extracted name equals its current
file name (`goodTreeB`), then a second run changes nothing: it produces only
`AlreadyNamed` outcomes, zero `Renamed` outcomes, an empty issues list, and
every file keeps its first-run name.  (Without that proviso the property fails:
files that received a collision suffix on the first run are renamed again on
the second run, and files that warned or errored repeat their warnings and
errors — see the counterexample.) -/
theorem second_run_already_named (dirs : List DirState)
    (hgood : goodTreeB ((renombrarTree dirs).1) = true) :
    (renombrarTree ((renombrarTree dirs).1)).1 = (renombrarTree dirs).1 ∧
    (∀ o ∈ (renombrarTree ((renombrarTree dirs).1)).2, ∃ r, o = Outcome.alreadyNamed r) ∧
    advertenciasErrores (renombrarTree ((renombrarTree dirs).1)).2 = [] ∧
    (renombrarTree ((renombrarTree dirs).1)).2.filter esRenombrado = [] := by
  obtain ⟨hg, hk⟩ := goodTreeB_spec _ hgood
  obtain ⟨h1, h2⟩ := renombrarTree_good _ hg hk
  refine ⟨h1, h2, ?_, ?_⟩
  · rw [advertenciasErrores, List.filterMap_eq_nil_iff]
    intro o ho
    obtain ⟨r, rfl⟩ := h2 o ho
    rfl
  · rw [List.filter_eq_nil_iff]
    intro o ho
    obtain ⟨r, rfl⟩ := h2 o ho
    simp [esRenombrado]

/-- Witness for the amended idempotence theorem: a single well-behaved
document; the second run only reports it as already named. -/
theorem second_run_already_named_witness :
    (renombrarTree ((renombrarTree unJuan).1)).1 = (renombrarTree unJuan).1 ∧
    advertenciasErrores (renombrarTree ((renombrarTree unJuan).1)).2 = [] :=
  ⟨(second_run_already_named unJuan (by decide)).1,
   (second_run_already_named unJuan (by decide)).2.2.1⟩

/-- C3 counterexample: two documents that both extract `"Juan Perez"`.  The
first run produces `Juan Perez.pdf` and `Juan Perez_1.pdf`; on the second run
the file `Juan Perez_1.pdf` is renamed again (its candidate `Juan Perez.pdf`
exists, and the collision loop skips `_1` because that is the file's own
name), so the second run is not all `AlreadyNamed` and has a `Renamed`
outcome. -/
theorem second_run_renames_counterexample :
    (renombrarTree ((renombrarTree dosJuanes).1)).2 =
      [.alreadyNamed "Juan Perez.pdf",
       .renamed "Juan Perez_1.pdf" "Juan Perez_2.pdf"] ∧
    (renombrarTree ((renombrarTree dosJuanes).1)).2.filter esRenombrado ≠ [] := by decide

theorem mem_buildArchive : ∀ (dirs : List DirState) (a : String),
    a ∈ buildArchive dirs ↔
      ∃ d ∈ dirs, ∃ e ∈ d.files, esNombrePdf e.name = true ∧ a = relPath d.dir e.name := by
  intro dirs a
  induction dirs with
  | nil => simp [buildArchive]
  | cons d ds ih =>
    simp only [buildArchive, List.mem_append, ih, List.mem_map, List.mem_filter,
      List.mem_cons]
    constructor
    · rintro (⟨e, ⟨he, hpdf⟩, rfl⟩ | ⟨d2, hd2, rest⟩)
      · exact ⟨d, Or.inl rfl, e, he, hpdf, rfl⟩
      · exact ⟨d2, Or.inr hd2, rest⟩
    · rintro ⟨d2, hd2 | hd2, e, he, hpdf, rfl⟩
      · subst hd2
        exact Or.inl ⟨e, ⟨he, hpdf⟩, rfl⟩
      · exact Or.inr ⟨d2, hd2, e, he, hpdf, rfl⟩

/-- C9: the output archive built after the rename run contains exactly the
files of the post-rename extraction tree whose names pass the case-insensitive
`.pdf` filter, each stored under its path relative to the extraction root, and
nothing else — in particular no non-document file of the input appears. -/
theorem output_archive_exactly_pdfs (dirs : List DirState) (a : String) :
    a ∈ buildArchive (renombrarTree dirs).1 ↔
      ∃ d ∈ (renombrarTree dirs).1, ∃ e ∈ d.files,
        esNombrePdf e.name = true ∧ a = relPath d.dir e.name :=
  mem_buildArchive (renombrarTree dirs).1 a
